import Mathlib

/-!
Shallow embedding of the background-task queue of `improved_bg_tasks.py`.

The embedded state consists of the module-level globals of the source:
`task_queue` (an asyncio FIFO queue, embedded as a list with tail enqueue and
head dequeue) and `task_statuses` (a Python dict from task id to `TaskStatus`,
embedded as an insertion-ordered association list where assignment to an
existing key overwrites in place and assignment to a fresh key appends).

The worker coroutine `process_task_queue` runs as a single task; each loop
iteration dequeues one item, marks it `processing`, awaits its unit of work,
and marks it `completed` or `failed`.  We embed the loop as two fine-grained
steps — `Action.start` (dequeue + mark processing) and `Action.finish`
(outcome of awaiting the unit of work) — interleaved arbitrarily with producer
steps `Action.enqueue` (the body of the `add_task` endpoint).  The `current`
field holds the item the worker is awaiting; there is exactly one worker, so
`start` is only enabled when `current` is empty.  A unit of work is embedded
by its outcome: `Except.ok ()` for normal return, `Except.error e` for a
raised exception with description `e` (`str(task_error)` in the source).
Wall-clock readings `int(time.time())` / `datetime.now()` are inputs of the
actions (naturals); two producer calls in the same second receive equal
readings.  The `enqueued` and `begun` fields are ghost history variables
recording ids in enqueue order and in worker-dequeue order; they are written
by no source line and only observed by theorems.
-/

namespace BgTasks

/-- Statuses are the literal strings used by the source:
"queued", "processing", "completed", "failed". -/
structure TaskStatus where
  task_id : String
  status : String
  created_at : Nat
  completed_at : Option Nat := none
  error : Option String := none
deriving DecidableEq, Repr

/-- The `task_statuses` dict: insertion-ordered association list. -/
abbrev Registry := List (String × TaskStatus)

/-- Keys of the dict in insertion order. -/
def keys (d : Registry) : List String := d.map (fun p => p.1)

/-- Dict lookup `task_statuses[k]` / `k in task_statuses`. -/
def dictGet (d : Registry) (k : String) : Option TaskStatus :=
  (d.find? (fun p => p.1 == k)).map (fun p => p.2)

/-- Dict assignment `task_statuses[k] = v`: overwrite in place if the key is
present, append otherwise (Python dicts keep insertion order and keep the
position of an overwritten key). -/
def dictInsert (d : Registry) (k : String) (v : TaskStatus) : Registry :=
  if d.any (fun p => p.1 == k) then
    d.map (fun p => if p.1 == k then (k, v) else p)
  else
    d ++ [(k, v)]

/-- The guarded field mutation of the worker loop:
`if task_id in task_statuses: task_statuses[task_id].<fields> = ...`.
When the key is absent the registry is untouched. -/
def updateRecord (d : Registry) (k : String) (f : TaskStatus → TaskStatus) : Registry :=
  d.map (fun p => if p.1 == k then (p.1, f p.2) else p)

/-- Lines 204-205: `task_statuses[task_id].status = "processing"`. -/
def markProcessing (d : Registry) (k : String) : Registry :=
  updateRecord d k (fun r => { r with status := "processing" })

/-- Lines 211-213: set status `"completed"` and `completed_at`. -/
def markCompleted (d : Registry) (k : String) (now : Nat) : Registry :=
  updateRecord d k (fun r => { r with status := "completed", completed_at := some now })

/-- Lines 217-220: set status `"failed"`, `error` and `completed_at`. -/
def markFailed (d : Registry) (k : String) (e : String) (now : Nat) : Registry :=
  updateRecord d k (fun r => { r with status := "failed", error := some e, completed_at := some now })

/-- A queue entry `{"id": task_id, "func": run_task(...)}`; the coroutine is
embedded by its eventual outcome. -/
structure WorkItem where
  id : String
  func : Except String Unit

/-- The module-level mutable state, plus the worker's in-flight item and two
ghost history lists (see the module docstring). -/
structure QState where
  task_queue : List WorkItem
  current : Option WorkItem
  task_statuses : Registry
  enqueued : List String
  begun : List String

/-- State at process start: empty queue, empty dict, idle worker. -/
def initState : QState :=
  { task_queue := [], current := none, task_statuses := [], enqueued := [], begun := [] }

/-- Line 355: `task_id = f"task_{name}_{int(time.time())}"`. -/
def mkTaskId (name : String) (now : Nat) : String :=
  "task_" ++ name ++ "_" ++ toString now

/-- Lines 359-363: the fresh `TaskStatus(task_id=..., status="queued",
created_at=datetime.now())`. -/
def newRecord (id : String) (now : Nat) : TaskStatus :=
  { task_id := id, status := "queued", created_at := now }

/-- Body of the `add_task` endpoint (lines 352-369): create the status record,
then put `{"id": task_id, "func": ...}` on the queue.  `now` is the clock
reading and `outcome` the embedded unit of work. -/
def add_task (s : QState) (name : String) (now : Nat) (outcome : Except String Unit) : QState :=
  let id := mkTaskId name now
  { s with
      task_statuses := dictInsert s.task_statuses id (newRecord id now),
      task_queue := s.task_queue ++ [⟨id, outcome⟩],
      enqueued := s.enqueued ++ [id] }

/-- One observable step of the system. -/
inductive Action where
  | enqueue (name : String) (now : Nat) (outcome : Except String Unit)
  | start
  | finish (now : Nat)

/-- Small-step semantics.  `start` embeds lines 200-207 of the worker loop
(`await task_queue.get()` then mark processing): it fires only when the worker
is idle and the queue non-empty, since the single worker cannot dequeue while
awaiting a unit of work.  `finish` embeds lines 209-224: on `Except.ok` mark
completed, on `Except.error e` the `except` branch marks failed with the
error's description; either way the loop goes round again (`current := none`).
Disabled actions leave the state unchanged. -/
def stepA (s : QState) : Action → QState
  | Action.enqueue name now outcome => add_task s name now outcome
  | Action.start =>
      match s.current, s.task_queue with
      | none, item :: rest =>
          { s with
              task_queue := rest,
              current := some item,
              task_statuses := markProcessing s.task_statuses item.id,
              begun := s.begun ++ [item.id] }
      | _, _ => s
  | Action.finish now =>
      match s.current with
      | some item =>
          { s with
              current := none,
              task_statuses :=
                match item.func with
                | Except.ok _ => markCompleted s.task_statuses item.id now
                | Except.error e => markFailed s.task_statuses item.id e now }
      | none => s

/-- State after executing a list of actions from process start. -/
def run (acts : List Action) : QState :=
  acts.foldl stepA initState

/-- Status currently recorded for an id, if any. -/
def statusOf (s : QState) (id : String) : Option String :=
  (dictGet s.task_statuses id).map (fun r => r.status)

/-- Ids of the items waiting in the queue, head first. -/
def queueIds (s : QState) : List String := s.task_queue.map (fun i => i.id)

/-- The `get_task_status` endpoint (lines 380-389): 404 if the id is absent,
otherwise the record. -/
def get_task_status (s : QState) (task_id : String) : Except Nat TaskStatus :=
  match dictGet s.task_statuses task_id with
  | none => Except.error 404
  | some r => Except.ok r

/-- Shape of the `get_queue_status` response (lines 392-401). -/
structure QueueStatus where
  queue_size : Nat
  total_tasks : Nat
  completed_tasks : Nat
  failed_tasks : Nat
  processing_tasks : Nat
deriving DecidableEq, Repr

/-- The `get_queue_status` endpoint: `qsize()` of the pending queue, `len` of
the dict, and counts of records by status string. -/
def get_queue_status (s : QState) : QueueStatus :=
  { queue_size := s.task_queue.length,
    total_tasks := s.task_statuses.length,
    completed_tasks := (s.task_statuses.filter (fun p => p.2.status == "completed")).length,
    failed_tasks := (s.task_statuses.filter (fun p => p.2.status == "failed")).length,
    processing_tasks := (s.task_statuses.filter (fun p => p.2.status == "processing")).length }

/-! ### Dictionary lemmas -/

theorem dictGet_nil (k : String) : dictGet [] k = none := rfl

theorem keys_nil : keys [] = [] := rfl

theorem keys_cons (p : String × TaskStatus) (d : Registry) :
    keys (p :: d) = p.1 :: keys d := rfl

theorem not_mem_keys_cons (p : String × TaskStatus) (d : Registry) (k : String)
    (h : k ∉ keys (p :: d)) : k ≠ p.1 ∧ k ∉ keys d := by
  rw [keys_cons] at h
  exact ⟨fun he => h (he ▸ List.mem_cons_self p.1 (keys d)),
         fun hm => h (List.mem_cons_of_mem p.1 hm)⟩

theorem dictGet_cons (p : String × TaskStatus) (d : Registry) (k : String) :
    dictGet (p :: d) k = if p.1 = k then some p.2 else dictGet d k := by
  by_cases h : p.1 = k
  · rw [if_pos h]
    unfold dictGet
    rw [List.find?_cons_of_pos _ (by simp [h])]
    simp
  · rw [if_neg h]
    unfold dictGet
    rw [List.find?_cons_of_neg _ (by simp [h])]

theorem updateRecord_nil (k : String) (f : TaskStatus → TaskStatus) :
    updateRecord [] k f = [] := rfl

theorem updateRecord_cons (p : String × TaskStatus) (d : Registry) (k : String)
    (f : TaskStatus → TaskStatus) :
    updateRecord (p :: d) k f =
      (if p.1 = k then (p.1, f p.2) else p) :: updateRecord d k f := by
  by_cases h : p.1 = k
  · rw [if_pos h]
    unfold updateRecord
    rw [List.map_cons, if_pos (by simp [h])]
  · rw [if_neg h]
    unfold updateRecord
    rw [List.map_cons, if_neg (by simp [h])]

theorem mem_keys_iff (d : Registry) (k : String) : k ∈ keys d ↔ (dictGet d k).isSome := by
  induction d with
  | nil => simp [keys_nil, dictGet_nil]
  | cons p d ih =>
      rw [keys_cons, List.mem_cons, dictGet_cons]
      by_cases h : p.1 = k
      · simp [h]
      · have h2 : ¬ k = p.1 := fun he => h he.symm
        simp [h, h2, ih]

theorem dictGet_eq_none (d : Registry) (k : String) (h : k ∉ keys d) : dictGet d k = none := by
  rcases ho : dictGet d k with _ | r
  · rfl
  · exact absurd ((mem_keys_iff d k).2 (by simp [ho])) h

theorem keys_updateRecord (d : Registry) (k : String) (f : TaskStatus → TaskStatus) :
    keys (updateRecord d k f) = keys d := by
  induction d with
  | nil => rfl
  | cons p d ih =>
      rw [updateRecord_cons, keys_cons, keys_cons, ih]
      by_cases h : p.1 = k
      · rw [if_pos h]
      · rw [if_neg h]

theorem dictGet_updateRecord_self (d : Registry) (k : String) (f : TaskStatus → TaskStatus) :
    dictGet (updateRecord d k f) k = (dictGet d k).map f := by
  induction d with
  | nil => rfl
  | cons p d ih =>
      rw [updateRecord_cons, dictGet_cons, dictGet_cons]
      by_cases h : p.1 = k
      · simp [h]
      · simp [h, ih]

theorem dictGet_updateRecord_ne (d : Registry) (k k' : String) (f : TaskStatus → TaskStatus)
    (hne : k' ≠ k) : dictGet (updateRecord d k f) k' = dictGet d k' := by
  induction d with
  | nil => rfl
  | cons p d ih =>
      rw [updateRecord_cons, dictGet_cons, dictGet_cons]
      by_cases h : p.1 = k
      · have h2 : ¬ p.1 = k' := fun he => hne ((h ▸ he : (k : String) = k')).symm
        simp [h, h2, Ne.symm hne]
        exact ih
      · by_cases h2 : p.1 = k' <;> simp [h, h2, hne, ih]

theorem updateRecord_of_not_mem (d : Registry) (k : String) (f : TaskStatus → TaskStatus)
    (h : k ∉ keys d) : updateRecord d k f = d := by
  induction d with
  | nil => rfl
  | cons p d ih =>
      rcases not_mem_keys_cons p d k h with ⟨h1, h2⟩
      rw [updateRecord_cons, if_neg (fun he => h1 he.symm), ih h2]

theorem dictInsert_of_not_mem (d : Registry) (k : String) (v : TaskStatus) (h : k ∉ keys d) :
    dictInsert d k v = d ++ [(k, v)] := by
  have : d.any (fun p => p.1 == k) = false := by
    simp only [List.any_eq_false]
    intro p hp
    simp only [beq_iff_eq]
    intro he
    exact h (he ▸ List.mem_map_of_mem (fun q => q.1) hp)
  simp [dictInsert, this]

theorem dictInsert_of_mem (d : Registry) (k : String) (v : TaskStatus) (h : k ∈ keys d) :
    dictInsert d k v = d.map (fun p => if p.1 == k then (k, v) else p) := by
  have : d.any (fun p => p.1 == k) = true := by
    simp only [List.any_eq_true]
    rcases List.mem_map.1 h with ⟨p, hp, hk⟩
    exact ⟨p, hp, by simp [hk]⟩
  simp [dictInsert, this]

theorem dictGet_append_left (d e : Registry) (k : String) (r : TaskStatus)
    (h : dictGet d k = some r) : dictGet (d ++ e) k = some r := by
  induction d with
  | nil => simp [dictGet_nil] at h
  | cons p d ih =>
      rw [dictGet_cons] at h
      by_cases hp : p.1 = k
      · simpa [dictGet_cons, hp] using (by simpa [hp] using h)
      · rw [List.cons_append, dictGet_cons, if_neg hp]
        exact ih (by simpa [hp] using h)

theorem dictGet_append_right (d e : Registry) (k : String) (h : k ∉ keys d) :
    dictGet (d ++ e) k = dictGet e k := by
  induction d with
  | nil => rfl
  | cons p d ih =>
      rcases not_mem_keys_cons p d k h with ⟨h1, h2⟩
      rw [List.cons_append, dictGet_cons, if_neg (fun he => h1 he.symm)]
      exact ih h2

theorem dictInsert_eq_updateRecord (d : Registry) (k : String) (v : TaskStatus)
    (h : k ∈ keys d) : dictInsert d k v = updateRecord d k (fun _ => v) := by
  rw [dictInsert_of_mem d k v h]
  clear h
  induction d with
  | nil => rfl
  | cons p d ih =>
      by_cases h : p.1 = k <;> simp [updateRecord, h] at ih ⊢ <;> exact ih

theorem dictGet_dictInsert_self (d : Registry) (k : String) (v : TaskStatus) :
    dictGet (dictInsert d k v) k = some v := by
  by_cases h : k ∈ keys d
  · rw [dictInsert_eq_updateRecord d k v h, dictGet_updateRecord_self]
    rcases (Option.isSome_iff_exists.1 ((mem_keys_iff d k).1 h)) with ⟨r, hr⟩
    rw [hr]
    rfl
  · rw [dictInsert_of_not_mem d k v h, dictGet_append_right d _ k h, dictGet_cons]
    simp

theorem dictGet_dictInsert_ne (d : Registry) (k k' : String) (v : TaskStatus) (hne : k' ≠ k) :
    dictGet (dictInsert d k v) k' = dictGet d k' := by
  by_cases h : k ∈ keys d
  · rw [dictInsert_eq_updateRecord d k v h, dictGet_updateRecord_ne d k k' _ hne]
  · rw [dictInsert_of_not_mem d k v h]
    by_cases h2 : k' ∈ keys d
    · rcases (Option.isSome_iff_exists.1 ((mem_keys_iff d k').1 h2)) with ⟨r, hr⟩
      rw [dictGet_append_left d _ k' r hr, hr]
    · rw [dictGet_append_right d _ k' h2, dictGet_cons, if_neg (fun he => hne he.symm),
          dictGet_nil, dictGet_eq_none d k' h2]

theorem keys_dictInsert_of_not_mem (d : Registry) (k : String) (v : TaskStatus)
    (h : k ∉ keys d) : keys (dictInsert d k v) = keys d ++ [k] := by
  rw [dictInsert_of_not_mem d k v h]
  simp [keys]

theorem keys_dictInsert_of_mem (d : Registry) (k : String) (v : TaskStatus)
    (h : k ∈ keys d) : keys (dictInsert d k v) = keys d := by
  rw [dictInsert_eq_updateRecord d k v h, keys_updateRecord]

/-! ### Step-shape lemmas -/

theorem mem_keys_dictInsert_self (d : Registry) (k : String) (v : TaskStatus) :
    k ∈ keys (dictInsert d k v) := by
  rw [mem_keys_iff, dictGet_dictInsert_self]
  rfl

theorem mem_keys_dictInsert (d : Registry) (k k' : String) (v : TaskStatus)
    (h : k' ∈ keys d) : k' ∈ keys (dictInsert d k v) := by
  by_cases he : k' = k
  · exact he ▸ mem_keys_dictInsert_self d k v
  · rw [mem_keys_iff, dictGet_dictInsert_ne d k k' v he]
    exact (mem_keys_iff d k').1 h

theorem stepA_enqueue (s : QState) (name : String) (now : Nat) (outcome : Except String Unit) :
    stepA s (Action.enqueue name now outcome) = add_task s name now outcome := rfl

theorem stepA_start_active (s : QState) (item : WorkItem) (rest : List WorkItem)
    (hc : s.current = none) (hq : s.task_queue = item :: rest) :
    stepA s Action.start =
      { s with
          task_queue := rest,
          current := some item,
          task_statuses := markProcessing s.task_statuses item.id,
          begun := s.begun ++ [item.id] } := by
  simp [stepA, hc, hq]

theorem stepA_start_busy (s : QState) (item : WorkItem) (hc : s.current = some item) :
    stepA s Action.start = s := by
  simp [stepA, hc]

theorem stepA_start_empty (s : QState) (hq : s.task_queue = []) :
    stepA s Action.start = s := by
  rcases hc : s.current with _ | item <;> simp [stepA, hc, hq]

theorem stepA_finish_ok (s : QState) (item : WorkItem) (now : Nat)
    (hc : s.current = some item) (hf : item.func = Except.ok ()) :
    stepA s (Action.finish now) =
      { s with current := none,
               task_statuses := markCompleted s.task_statuses item.id now } := by
  simp [stepA, hc, hf]

theorem stepA_finish_err (s : QState) (item : WorkItem) (now : Nat) (e : String)
    (hc : s.current = some item) (hf : item.func = Except.error e) :
    stepA s (Action.finish now) =
      { s with current := none,
               task_statuses := markFailed s.task_statuses item.id e now } := by
  simp [stepA, hc, hf]

theorem stepA_finish_idle (s : QState) (now : Nat) (hc : s.current = none) :
    stepA s (Action.finish now) = s := by
  simp [stepA, hc]

theorem enqueued_stepA (s : QState) (a : Action) :
    ∃ t, (stepA s a).enqueued = s.enqueued ++ t := by
  rcases a with ⟨name, now, outcome⟩ | _ | now
  · exact ⟨[mkTaskId name now], rfl⟩
  · rcases hc : s.current with _ | item
    · rcases hq : s.task_queue with _ | ⟨item, rest⟩
      · exact ⟨[], by rw [stepA_start_empty s hq, List.append_nil]⟩
      · exact ⟨[], by rw [stepA_start_active s item rest hc hq, List.append_nil]⟩
    · exact ⟨[], by rw [stepA_start_busy s item hc, List.append_nil]⟩
  · rcases hc : s.current with _ | item
    · exact ⟨[], by rw [stepA_finish_idle s now hc, List.append_nil]⟩
    · rcases hf : item.func with e | u
      · exact ⟨[], by rw [stepA_finish_err s item now e hc hf, List.append_nil]⟩
      · exact ⟨[], by rw [stepA_finish_ok s item now hc (by rw [hf]), List.append_nil]⟩

/-! ### Structural invariant: FIFO bookkeeping and registry membership -/

/-- Unconditional invariant of every reachable state: the ids enqueued so far
are exactly the ids handed to the worker (in dequeue order) followed by the
ids still waiting in the queue, and every queued or in-flight item has a
registry record (records are never deleted). -/
def BaseInv (s : QState) : Prop :=
  s.enqueued = s.begun ++ queueIds s ∧
  (∀ item ∈ s.task_queue, item.id ∈ keys s.task_statuses) ∧
  (∀ item, s.current = some item → item.id ∈ keys s.task_statuses)

theorem baseInv_init : BaseInv initState := by
  refine ⟨rfl, ?_, ?_⟩
  · intro item h
    cases h
  · intro item h
    cases h

theorem baseInv_step (s : QState) (a : Action) (h : BaseInv s) : BaseInv (stepA s a) := by
  obtain ⟨h1, h2, h3⟩ := h
  rcases a with ⟨name, now, outcome⟩ | _ | now
  · rw [stepA_enqueue]
    refine ⟨?_, ?_, ?_⟩
    · show s.enqueued ++ [mkTaskId name now] = s.begun ++ queueIds (add_task s name now outcome)
      have hq : queueIds (add_task s name now outcome) = queueIds s ++ [mkTaskId name now] := by
        simp [queueIds, add_task]
      rw [hq, h1, List.append_assoc]
    · intro item hm
      rcases List.mem_append.1 hm with hm | hm
      · exact mem_keys_dictInsert _ _ _ _ (h2 item hm)
      · have h4 : item = ⟨mkTaskId name now, outcome⟩ := List.mem_singleton.1 hm
        rw [h4]
        exact mem_keys_dictInsert_self _ _ _
    · intro item hc
      exact mem_keys_dictInsert _ _ _ _ (h3 item hc)
  · rcases hc : s.current with _ | item
    · rcases hq : s.task_queue with _ | ⟨item, rest⟩
      · rw [stepA_start_empty s hq]
        exact ⟨h1, h2, h3⟩
      · rw [stepA_start_active s item rest hc hq]
        refine ⟨?_, ?_, ?_⟩
        · show s.enqueued = (s.begun ++ [item.id]) ++ queueIds { s with task_queue := rest, current := some item, task_statuses := markProcessing s.task_statuses item.id, begun := s.begun ++ [item.id] }
          have : queueIds s = item.id :: queueIds { s with task_queue := rest, current := some item, task_statuses := markProcessing s.task_statuses item.id, begun := s.begun ++ [item.id] } := by
            simp [queueIds, hq]
          rw [h1, this, List.append_assoc]
          rfl
        · intro it hm
          show it.id ∈ keys (markProcessing s.task_statuses item.id)
          unfold markProcessing
          rw [keys_updateRecord]
          exact h2 it (by rw [hq]; exact List.mem_cons_of_mem item hm)
        · intro it hcc
          have h5 : item = it := by simpa using hcc
          subst h5
          show item.id ∈ keys (markProcessing s.task_statuses item.id)
          unfold markProcessing
          rw [keys_updateRecord]
          exact h2 item (by rw [hq]; exact List.mem_cons_self item rest)
    · rw [stepA_start_busy s item hc]
      exact ⟨h1, h2, h3⟩
  · rcases hc : s.current with _ | item
    · rw [stepA_finish_idle s now hc]
      exact ⟨h1, h2, h3⟩
    · rcases hf : item.func with e | u
      · rw [stepA_finish_err s item now e hc hf]
        refine ⟨h1, ?_, ?_⟩
        · intro it hm
          show it.id ∈ keys (markFailed s.task_statuses item.id e now)
          unfold markFailed
          rw [keys_updateRecord]
          exact h2 it hm
        · intro it hcc
          cases hcc
      · rw [stepA_finish_ok s item now hc (by rw [hf])]
        refine ⟨h1, ?_, ?_⟩
        · intro it hm
          show it.id ∈ keys (markCompleted s.task_statuses item.id now)
          unfold markCompleted
          rw [keys_updateRecord]
          exact h2 it hm
        · intro it hcc
          cases hcc

theorem baseInv_foldl (acts : List Action) :
    ∀ s, BaseInv s → BaseInv (List.foldl stepA s acts) := by
  induction acts with
  | nil => exact fun s h => h
  | cons a acts ih => exact fun s h => ih (stepA s a) (baseInv_step s a h)

theorem baseInv_run (acts : List Action) : BaseInv (run acts) :=
  baseInv_foldl acts initState baseInv_init

/-! ### Main invariant under collision-free ids -/

/-- Id of the item the worker is awaiting, if any. -/
def currentId (s : QState) : Option String := s.current.map (fun i => i.id)

/-- Field coherence of one record: `completed_at` set iff the status is
terminal, `error` set iff the status is `"failed"`. -/
def fieldsOK (r : TaskStatus) : Prop :=
  (r.completed_at.isSome ↔ (r.status = "completed" ∨ r.status = "failed")) ∧
  (r.error.isSome ↔ r.status = "failed")

theorem nodup_mid (l₁ l₂ : List String) (a : String) (h : (l₁ ++ a :: l₂).Nodup) :
    a ∉ l₂ :=
  (List.nodup_cons.1 h.of_append_right).1

theorem not_mem_of_nodup_snoc (l : List String) (a : String) (h : (l ++ [a]).Nodup) :
    a ∉ l := by
  rcases List.nodup_append.1 h with ⟨_, _, hdisj⟩
  intro hmem
  exact hdisj hmem (List.mem_singleton_self a)

theorem nonterminal_fields (r : TaskStatus) (hf : fieldsOK r)
    (h1 : r.status ≠ "completed") (h2 : r.status ≠ "failed") :
    r.completed_at = none ∧ r.error = none := by
  obtain ⟨hc, he⟩ := hf
  refine ⟨?_, ?_⟩
  · rw [← Option.not_isSome_iff_eq_none, hc]
    rintro (h | h)
    · exact h1 h
    · exact h2 h
  · rw [← Option.not_isSome_iff_eq_none, he]
    exact h2

theorem fieldsOK_newRecord (id : String) (now : Nat) : fieldsOK (newRecord id now) := by
  constructor <;> simp [newRecord]

theorem fieldsOK_mk_processing (r : TaskStatus) (hc : r.completed_at = none)
    (he : r.error = none) : fieldsOK { r with status := "processing" } := by
  constructor <;> simp [hc, he]

theorem fieldsOK_mk_completed (r : TaskStatus) (he : r.error = none) (now : Nat) :
    fieldsOK { r with status := "completed", completed_at := some now } := by
  constructor <;> simp [he]

theorem fieldsOK_mk_failed (r : TaskStatus) (e : String) (now : Nat) :
    fieldsOK { r with status := "failed", error := some e, completed_at := some now } := by
  constructor <;> simp

/-- Invariant of states reachable without a task-id collision: registry keys
are the enqueued ids, the in-flight id was dequeued, and every record's
status agrees with its position in the pipeline and has coherent
`completed_at`/`error` fields. -/
def Inv (s : QState) : Prop :=
  keys s.task_statuses = s.enqueued ∧
  (∀ id, currentId s = some id → id ∈ s.begun) ∧
  ∀ id r, dictGet s.task_statuses id = some r →
    fieldsOK r ∧
    (id ∈ queueIds s → r.status = "queued") ∧
    (currentId s = some id → r.status = "processing") ∧
    (id ∉ queueIds s → currentId s ≠ some id →
      (r.status = "completed" ∨ r.status = "failed"))

theorem inv_init : Inv initState := by
  refine ⟨rfl, ?_, ?_⟩
  · intro id h
    cases h
  · intro id r h
    cases h

theorem inv_step (s : QState) (a : Action) (hb : BaseInv s) (hi : Inv s)
    (hn : (stepA s a).enqueued.Nodup) : Inv (stepA s a) := by
  obtain ⟨hb1, hb2, hb3⟩ := hb
  obtain ⟨hi1, hi2, hi3⟩ := hi
  rcases a with ⟨name, now, outcome⟩ | _ | now
  · -- producer step
    rw [stepA_enqueue] at hn ⊢
    have hq' : queueIds (add_task s name now outcome) =
        queueIds s ++ [mkTaskId name now] := by
      simp [queueIds, add_task]
    have hfresh : mkTaskId name now ∉ s.enqueued :=
      not_mem_of_nodup_snoc s.enqueued (mkTaskId name now) hn
    have hfreshk : mkTaskId name now ∉ keys s.task_statuses := by
      rw [hi1]
      exact hfresh
    refine ⟨?_, ?_, ?_⟩
    · show keys (dictInsert s.task_statuses (mkTaskId name now)
          (newRecord (mkTaskId name now) now)) = s.enqueued ++ [mkTaskId name now]
      rw [keys_dictInsert_of_not_mem _ _ _ hfreshk, hi1]
    · intro id hcid
      exact hi2 id hcid
    · intro id r hr
      by_cases he : id = mkTaskId name now
      · have hrr : r = newRecord (mkTaskId name now) now := by
          have h9 := hr
          rw [show (add_task s name now outcome).task_statuses =
                dictInsert s.task_statuses (mkTaskId name now)
                  (newRecord (mkTaskId name now) now) from rfl, he,
              dictGet_dictInsert_self] at h9
          exact (Option.some.inj h9).symm
        refine ⟨?_, ?_, ?_, ?_⟩
        · rw [hrr]
          exact fieldsOK_newRecord _ _
        · intro _
          rw [hrr]
          rfl
        · intro hcid
          have hmem : id ∈ s.enqueued := by
            rw [hb1]
            exact List.mem_append_left _ (hi2 id hcid)
          rw [he] at hmem
          exact absurd hmem hfresh
        · intro hnq _
          refine absurd ?_ hnq
          rw [hq', he]
          exact List.mem_append_right _ (List.mem_singleton_self _)
      · have hr0 : dictGet s.task_statuses id = some r := by
          have h9 := hr
          rw [show (add_task s name now outcome).task_statuses =
                dictInsert s.task_statuses (mkTaskId name now)
                  (newRecord (mkTaskId name now) now) from rfl,
              dictGet_dictInsert_ne _ _ _ _ he] at h9
          exact h9
        obtain ⟨hf, hqd, hcd, htd⟩ := hi3 id r hr0
        refine ⟨hf, ?_, hcd, ?_⟩
        · intro hm
          rw [hq'] at hm
          rcases List.mem_append.1 hm with hm | hm
          · exact hqd hm
          · exact absurd (List.mem_singleton.1 hm) he
        · intro hnm hnc
          refine htd ?_ hnc
          intro hm
          refine hnm ?_
          rw [hq']
          exact List.mem_append_left _ hm
  · -- worker dequeues the head item
    rcases hc : s.current with _ | item
    · rcases hq : s.task_queue with _ | ⟨item, rest⟩
      · rw [stepA_start_empty s hq]
        exact ⟨hi1, hi2, hi3⟩
      · rw [stepA_start_active s item rest hc hq] at hn ⊢
        have hqs : queueIds s = item.id :: rest.map (fun i => i.id) := by
          simp [queueIds, hq]
        have hnodup : s.enqueued.Nodup := hn
        have h6 : (item.id :: rest.map (fun i => i.id)).Nodup := by
          have h7 := hnodup
          rw [hb1, hqs] at h7
          exact h7.of_append_right
        have hnotin_rest : item.id ∉ rest.map (fun i => i.id) := (List.nodup_cons.1 h6).1
        refine ⟨?_, ?_, ?_⟩
        · show keys (markProcessing s.task_statuses item.id) = s.enqueued
          unfold markProcessing
          rw [keys_updateRecord, hi1]
        · intro id hcid
          have h8 : item.id = id := by simpa [currentId] using hcid
          rw [← h8]
          exact List.mem_append_right _ (List.mem_singleton_self item.id)
        · intro id r hr
          by_cases he : id = item.id
          · have hpres : item.id ∈ keys s.task_statuses :=
              hb2 item (by rw [hq]; exact List.mem_cons_self item rest)
            rcases Option.isSome_iff_exists.1 ((mem_keys_iff _ _).1 hpres) with ⟨r0, hr0⟩
            obtain ⟨hf0, hqd0, _, _⟩ := hi3 item.id r0 hr0
            have hst0 : r0.status = "queued" :=
              hqd0 (by rw [hqs]; exact List.mem_cons_self _ _)
            have hfields0 := nonterminal_fields r0 hf0
              (by rw [hst0]; decide) (by rw [hst0]; decide)
            have hrr : r = { r0 with status := "processing" } := by
              have h9 := hr
              rw [show (markProcessing s.task_statuses item.id) =
                    updateRecord s.task_statuses item.id
                      (fun r => { r with status := "processing" }) from rfl, he,
                  dictGet_updateRecord_self, hr0] at h9
              exact (Option.some.inj h9).symm
            refine ⟨?_, ?_, ?_, ?_⟩
            · rw [hrr]
              exact fieldsOK_mk_processing r0 hfields0.1 hfields0.2
            · intro hm
              rw [he] at hm
              exact absurd hm hnotin_rest
            · intro _
              rw [hrr]
            · intro _ hnc
              exact (hnc (by simp [currentId, he])).elim
          · have hr0 : dictGet s.task_statuses id = some r := by
              have h9 := hr
              rw [show (markProcessing s.task_statuses item.id) =
                    updateRecord s.task_statuses item.id
                      (fun r => { r with status := "processing" }) from rfl,
                  dictGet_updateRecord_ne _ _ _ _ he] at h9
              exact h9
            obtain ⟨hf, hqd, _, htd⟩ := hi3 id r hr0
            refine ⟨hf, ?_, ?_, ?_⟩
            · intro hm
              exact hqd (by rw [hqs]; exact List.mem_cons_of_mem _ hm)
            · intro hcid
              have h8 : item.id = id := by simpa [currentId] using hcid
              exact absurd h8.symm he
            · intro hnm hnc
              refine htd ?_ ?_
              · intro hm
                rw [hqs] at hm
                rcases List.mem_cons.1 hm with hm | hm
                · exact he hm
                · exact hnm hm
              · intro hx
                rw [show currentId s = none by simp [currentId, hc]] at hx
                cases hx
    · rw [stepA_start_busy s item hc]
      exact ⟨hi1, hi2, hi3⟩
  · -- worker finishes the in-flight item
    rcases hc : s.current with _ | item
    · rw [stepA_finish_idle s now hc]
      exact ⟨hi1, hi2, hi3⟩
    · have hcur : currentId s = some item.id := by simp [currentId, hc]
      have hpres : item.id ∈ keys s.task_statuses := hb3 item hc
      rcases Option.isSome_iff_exists.1 ((mem_keys_iff _ _).1 hpres) with ⟨r0, hr0⟩
      obtain ⟨hf0, hqd0, hcd0, _⟩ := hi3 item.id r0 hr0
      have hst0 : r0.status = "processing" := hcd0 hcur
      have hfields0 := nonterminal_fields r0 hf0
        (by rw [hst0]; decide) (by rw [hst0]; decide)
      have hnq0 : item.id ∉ queueIds s := by
        intro hm
        have h9 := hqd0 hm
        rw [hst0] at h9
        exact absurd h9 (by decide)
      rcases hf : item.func with e | u
      · rw [stepA_finish_err s item now e hc hf] at hn ⊢
        refine ⟨?_, ?_, ?_⟩
        · show keys (markFailed s.task_statuses item.id e now) = s.enqueued
          unfold markFailed
          rw [keys_updateRecord, hi1]
        · intro id hcid
          cases hcid
        · intro id r hr
          by_cases he : id = item.id
          · have hrr : r = { r0 with
                status := "failed",
                error := some e,
                completed_at := some now } := by
              have h9 := hr
              rw [show (markFailed s.task_statuses item.id e now) =
                    updateRecord s.task_statuses item.id
                      (fun r => { r with
                        status := "failed",
                        error := some e,
                        completed_at := some now }) from rfl, he,
                  dictGet_updateRecord_self, hr0] at h9
              exact (Option.some.inj h9).symm
            refine ⟨?_, ?_, ?_, ?_⟩
            · rw [hrr]
              exact fieldsOK_mk_failed r0 e now
            · intro hm
              rw [he] at hm
              exact absurd hm hnq0
            · intro hcid
              cases hcid
            · intro _ _
              rw [hrr]
              exact Or.inr rfl
          · have hr1 : dictGet s.task_statuses id = some r := by
              have h9 := hr
              rw [show (markFailed s.task_statuses item.id e now) =
                    updateRecord s.task_statuses item.id
                      (fun r => { r with
                        status := "failed",
                        error := some e,
                        completed_at := some now }) from rfl,
                  dictGet_updateRecord_ne _ _ _ _ he] at h9
              exact h9
            obtain ⟨hf2, hqd2, _, htd2⟩ := hi3 id r hr1
            refine ⟨hf2, hqd2, ?_, ?_⟩
            · intro hcid
              cases hcid
            · intro hnm _
              refine htd2 hnm ?_
              rw [hcur]
              intro hx
              exact he (Option.some.inj hx).symm
      · rw [stepA_finish_ok s item now hc (by rw [hf])] at hn ⊢
        refine ⟨?_, ?_, ?_⟩
        · show keys (markCompleted s.task_statuses item.id now) = s.enqueued
          unfold markCompleted
          rw [keys_updateRecord, hi1]
        · intro id hcid
          cases hcid
        · intro id r hr
          by_cases he : id = item.id
          · have hrr : r = { r0 with
                status := "completed",
                completed_at := some now } := by
              have h9 := hr
              rw [show (markCompleted s.task_statuses item.id now) =
                    updateRecord s.task_statuses item.id
                      (fun r => { r with
                        status := "completed",
                        completed_at := some now }) from rfl, he,
                  dictGet_updateRecord_self, hr0] at h9
              exact (Option.some.inj h9).symm
            refine ⟨?_, ?_, ?_, ?_⟩
            · rw [hrr]
              exact fieldsOK_mk_completed r0 hfields0.2 now
            · intro hm
              rw [he] at hm
              exact absurd hm hnq0
            · intro hcid
              cases hcid
            · intro _ _
              rw [hrr]
              exact Or.inl rfl
          · have hr1 : dictGet s.task_statuses id = some r := by
              have h9 := hr
              rw [show (markCompleted s.task_statuses item.id now) =
                    updateRecord s.task_statuses item.id
                      (fun r => { r with
                        status := "completed",
                        completed_at := some now }) from rfl,
                  dictGet_updateRecord_ne _ _ _ _ he] at h9
              exact h9
            obtain ⟨hf2, hqd2, _, htd2⟩ := hi3 id r hr1
            refine ⟨hf2, hqd2, ?_, ?_⟩
            · intro hcid
              cases hcid
            · intro hnm _
              refine htd2 hnm ?_
              rw [hcur]
              intro hx
              exact he (Option.some.inj hx).symm

theorem enqueued_foldl (acts : List Action) :
    ∀ s : QState, ∃ t, (List.foldl stepA s acts).enqueued = s.enqueued ++ t := by
  induction acts with
  | nil => exact fun s => ⟨[], by simp⟩
  | cons a acts ih =>
      intro s
      rcases enqueued_stepA s a with ⟨t1, h1⟩
      rcases ih (stepA s a) with ⟨t2, h2⟩
      exact ⟨t1 ++ t2, by rw [List.foldl_cons, h2, h1, List.append_assoc]⟩

theorem inv_foldl (acts : List Action) :
    ∀ s, BaseInv s → (s.enqueued.Nodup → Inv s) →
      ((List.foldl stepA s acts).enqueued.Nodup → Inv (List.foldl stepA s acts)) := by
  induction acts with
  | nil => exact fun s _ hi hn => hi hn
  | cons a acts ih =>
      intro s hb hi hn
      refine ih (stepA s a) (baseInv_step s a hb) ?_ hn
      intro hn2
      have hs : s.enqueued.Nodup := by
        rcases enqueued_stepA s a with ⟨t, ht⟩
        rcases enqueued_stepA s a with ⟨t1, ht1⟩
        rw [ht1] at hn2
        exact hn2.of_append_left
      exact inv_step s a hb (hi hs) hn2

theorem inv_run (acts : List Action) (hn : (run acts).enqueued.Nodup) : Inv (run acts) :=
  inv_foldl acts initState baseInv_init (fun _ => inv_init) hn

theorem run_snoc (acts : List Action) (a : Action) :
    run (acts ++ [a]) = stepA (run acts) a := by
  simp [run, List.foldl_append]

theorem updateRecord_preserves_identity (d : Registry) (k : String)
    (f : TaskStatus → TaskStatus)
    (hf : ∀ r, (f r).task_id = r.task_id ∧ (f r).created_at = r.created_at)
    (id : String) (r r2 : TaskStatus)
    (hr : dictGet d id = some r) (hr2 : dictGet (updateRecord d k f) id = some r2) :
    r2.task_id = r.task_id ∧ r2.created_at = r.created_at := by
  by_cases he : id = k
  · rw [he, dictGet_updateRecord_self] at hr2
    rw [he] at hr
    rw [hr] at hr2
    have h9 : r2 = f r := (Option.some.inj hr2).symm
    rw [h9]
    exact hf r
  · rw [dictGet_updateRecord_ne d k id f he] at hr2
    have h9 : r = r2 := Option.some.inj (hr.symm.trans hr2)
    rw [← h9]
    exact ⟨rfl, rfl⟩

theorem keys_stepA_nodup (s : QState) (a : Action)
    (h : (keys s.task_statuses).Nodup) : (keys (stepA s a).task_statuses).Nodup := by
  rcases a with ⟨name, now, outcome⟩ | _ | now
  · rw [stepA_enqueue]
    show (keys (dictInsert s.task_statuses (mkTaskId name now)
      (newRecord (mkTaskId name now) now))).Nodup
    by_cases hm : mkTaskId name now ∈ keys s.task_statuses
    · rw [keys_dictInsert_of_mem _ _ _ hm]
      exact h
    · rw [keys_dictInsert_of_not_mem _ _ _ hm]
      refine List.nodup_append.2 ⟨h, List.nodup_singleton _, ?_⟩
      intro x hx hx2
      rw [List.mem_singleton.1 hx2] at hx
      exact hm hx
  · rcases hc : s.current with _ | item
    · rcases hq : s.task_queue with _ | ⟨item, rest⟩
      · rw [stepA_start_empty s hq]
        exact h
      · rw [stepA_start_active s item rest hc hq]
        show (keys (markProcessing s.task_statuses item.id)).Nodup
        unfold markProcessing
        rw [keys_updateRecord]
        exact h
    · rw [stepA_start_busy s item hc]
      exact h
  · rcases hc : s.current with _ | item
    · rw [stepA_finish_idle s now hc]
      exact h
    · rcases hfu : item.func with e | u
      · rw [stepA_finish_err s item now e hc hfu]
        show (keys (markFailed s.task_statuses item.id e now)).Nodup
        unfold markFailed
        rw [keys_updateRecord]
        exact h
      · rw [stepA_finish_ok s item now hc (by rw [hfu])]
        show (keys (markCompleted s.task_statuses item.id now)).Nodup
        unfold markCompleted
        rw [keys_updateRecord]
        exact h

theorem keys_foldl_nodup (acts : List Action) :
    ∀ s, (keys s.task_statuses).Nodup → (keys (List.foldl stepA s acts).task_statuses).Nodup := by
  induction acts with
  | nil => exact fun s h => h
  | cons a acts ih => exact fun s h => ih (stepA s a) (keys_stepA_nodup s a h)

/-- C1: the ids the single worker has started processing, in dequeue order
(`begun`), followed by the ids still waiting (`queueIds`), are exactly the ids
in enqueue order (`enqueued`) — the worker dequeues in strict FIFO order with
no reordering; moreover while one item is in flight (`current` is set) a
further dequeue attempt is a no-op, so two items are never executed
concurrently. -/
theorem worker_processes_fifo (acts : List Action) :
    (run acts).enqueued = (run acts).begun ++ queueIds (run acts) ∧
    ∀ item : WorkItem, (run acts).current = some item →
      stepA (run acts) Action.start = run acts :=
  ⟨(baseInv_run acts).1, fun item hc => stepA_start_busy (run acts) item hc⟩

/-- C1 witness: after enqueuing one task and dequeuing it, the FIFO equation
holds and a second dequeue attempt while it is in flight changes nothing. -/
theorem worker_processes_fifo_witness :
    (run [Action.enqueue "a" 5 (Except.ok ()), Action.start]).enqueued =
      (run [Action.enqueue "a" 5 (Except.ok ()), Action.start]).begun ++
        queueIds (run [Action.enqueue "a" 5 (Except.ok ()), Action.start]) ∧
    stepA (run [Action.enqueue "a" 5 (Except.ok ()), Action.start]) Action.start =
      run [Action.enqueue "a" 5 (Except.ok ()), Action.start] :=
  ⟨(worker_processes_fifo [Action.enqueue "a" 5 (Except.ok ()), Action.start]).1,
   (worker_processes_fifo [Action.enqueue "a" 5 (Except.ok ()), Action.start]).2
     ⟨"task_a_5", Except.ok ()⟩ rfl⟩

/-- C5 amended: the registry always holds at most one record per task_id
(Python dict keys are unique); colliding creates overwrite rather than
duplicate. -/
theorem registry_one_record_per_id (acts : List Action) :
    (keys (run acts).task_statuses).Nodup :=
  keys_foldl_nodup acts initState List.nodup_nil

/-- C5 counterexample: two distinct enqueue operations (same name, same
whole-second clock reading, even different units of work) generate the same
task_id, and the registry then holds a single record for the two creates. -/
theorem task_ids_collide :
    (run [Action.enqueue "a" 5 (Except.ok ()),
          Action.enqueue "a" 5 (Except.error "x")]).enqueued =
      ["task_a_5", "task_a_5"] ∧
    ¬ (run [Action.enqueue "a" 5 (Except.ok ()),
            Action.enqueue "a" 5 (Except.error "x")]).enqueued.Nodup ∧
    (run [Action.enqueue "a" 5 (Except.ok ()),
          Action.enqueue "a" 5 (Except.error "x")]).task_statuses.length = 1 := by
  decide

/-- C6 amended: `add_task` always installs a fresh record with status
`"queued"`, the current timestamp and empty `completed_at`/`error` under the
generated task_id — silently replacing any existing record with that id (no
`DuplicateTaskError` exists in the code) — and leaves every other id's record
unchanged. -/
theorem add_task_installs_fresh_record (s : QState) (name : String) (now : Nat)
    (outcome : Except String Unit) :
    dictGet (add_task s name now outcome).task_statuses (mkTaskId name now) =
      some (newRecord (mkTaskId name now) now) ∧
    ∀ k, k ≠ mkTaskId name now →
      dictGet (add_task s name now outcome).task_statuses k =
        dictGet s.task_statuses k := by
  constructor
  · show dictGet (dictInsert s.task_statuses (mkTaskId name now)
      (newRecord (mkTaskId name now) now)) (mkTaskId name now) = _
    rw [dictGet_dictInsert_self]
  · intro k hk
    show dictGet (dictInsert s.task_statuses (mkTaskId name now)
      (newRecord (mkTaskId name now) now)) k = _
    rw [dictGet_dictInsert_ne _ _ _ _ hk]

/-- C6 witness: creating `task_a_5` on a registry already holding a completed
record under that id replaces it with the fresh queued record and leaves the
other id alone. -/
theorem add_task_installs_fresh_record_witness :
    dictGet (add_task (run [Action.enqueue "a" 5 (Except.ok ()), Action.start,
        Action.finish 5]) "a" 5 (Except.ok ())).task_statuses "task_a_5" =
      some (newRecord "task_a_5" 5) ∧
    dictGet (add_task (run [Action.enqueue "a" 5 (Except.ok ()), Action.start,
        Action.finish 5]) "a" 5 (Except.ok ())).task_statuses "other" =
      dictGet (run [Action.enqueue "a" 5 (Except.ok ()), Action.start,
        Action.finish 5]).task_statuses "other" :=
  ⟨(add_task_installs_fresh_record (run [Action.enqueue "a" 5 (Except.ok ()),
      Action.start, Action.finish 5]) "a" 5 (Except.ok ())).1,
   (add_task_installs_fresh_record (run [Action.enqueue "a" 5 (Except.ok ()),
      Action.start, Action.finish 5]) "a" 5 (Except.ok ())).2 "other" (by decide)⟩

/-- C6 counterexample: creating a task whose generated id already names a
completed record raises nothing and replaces the record (it does not fail
with `DuplicateTaskError`, and the existing record is not left unchanged). -/
theorem create_on_existing_id_overwrites :
    statusOf (run [Action.enqueue "a" 5 (Except.ok ()), Action.start,
        Action.finish 5]) "task_a_5" = some "completed" ∧
    dictGet (run [Action.enqueue "a" 5 (Except.ok ()), Action.start,
        Action.finish 5, Action.enqueue "a" 5 (Except.ok ())]).task_statuses
        "task_a_5" =
      some { task_id := "task_a_5", status := "queued", created_at := 5 } := by
  decide

/-- C9: the status lookup endpoint returns 404 exactly when the task_id is
absent from the registry and returns the stored record exactly when it is
present; no other outcome is possible. -/
theorem get_task_status_total (s : QState) (task_id : String) :
    (dictGet s.task_statuses task_id = none →
      get_task_status s task_id = Except.error 404) ∧
    ∀ r, dictGet s.task_statuses task_id = some r →
      get_task_status s task_id = Except.ok r := by
  constructor
  · intro h
    simp [get_task_status, h]
  · intro r h
    simp [get_task_status, h]

/-- C9 witness: on a registry holding only `task_a_5`, looking up
`nonexistent` yields 404 and looking up `task_a_5` yields its record. -/
theorem get_task_status_total_witness :
    get_task_status (run [Action.enqueue "a" 5 (Except.ok ())]) "nonexistent" =
      Except.error 404 ∧
    get_task_status (run [Action.enqueue "a" 5 (Except.ok ())]) "task_a_5" =
      Except.ok (newRecord "task_a_5" 5) :=
  ⟨(get_task_status_total (run [Action.enqueue "a" 5 (Except.ok ())])
      "nonexistent").1 (by decide),
   (get_task_status_total (run [Action.enqueue "a" 5 (Except.ok ())])
      "task_a_5").2 (newRecord "task_a_5" 5) (by decide)⟩

/-- C10: every worker-loop transition (`start` marking processing, `finish`
marking completed or failed) leaves the `task_id` and `created_at` fields of
every registry record unchanged; only `status`, `completed_at` and `error`
are written. -/
theorem worker_transitions_preserve_identity (s : QState) (a : Action)
    (ha : a = Action.start ∨ ∃ now, a = Action.finish now)
    (id : String) (r r2 : TaskStatus)
    (hr : dictGet s.task_statuses id = some r)
    (hr2 : dictGet (stepA s a).task_statuses id = some r2) :
    r2.task_id = r.task_id ∧ r2.created_at = r.created_at := by
  have hsame : ∀ h9 : (stepA s a).task_statuses = s.task_statuses,
      r2.task_id = r.task_id ∧ r2.created_at = r.created_at := by
    intro h9
    rw [h9] at hr2
    have h8 : r = r2 := Option.some.inj (hr.symm.trans hr2)
    rw [← h8]
    exact ⟨rfl, rfl⟩
  rcases ha with ha | ⟨now, ha⟩
  · subst ha
    rcases hc : s.current with _ | item
    · rcases hq : s.task_queue with _ | ⟨item, rest⟩
      · exact hsame (by rw [stepA_start_empty s hq])
      · rw [stepA_start_active s item rest hc hq] at hr2
        exact updateRecord_preserves_identity s.task_statuses item.id
          (fun r => { r with status := "processing" })
          (fun r => ⟨rfl, rfl⟩) id r r2 hr hr2
    · exact hsame (by rw [stepA_start_busy s item hc])
  · subst ha
    rcases hc : s.current with _ | item
    · exact hsame (by rw [stepA_finish_idle s now hc])
    · rcases hfu : item.func with e | u
      · rw [stepA_finish_err s item now e hc hfu] at hr2
        exact updateRecord_preserves_identity s.task_statuses item.id
          (fun r => { r with status := "failed", error := some e,
                             completed_at := some now })
          (fun r => ⟨rfl, rfl⟩) id r r2 hr hr2
      · rw [stepA_finish_ok s item now hc (by rw [hfu])] at hr2
        exact updateRecord_preserves_identity s.task_statuses item.id
          (fun r => { r with status := "completed", completed_at := some now })
          (fun r => ⟨rfl, rfl⟩) id r r2 hr hr2

/-- C10 witness: dequeuing `task_a_5` rewrites its status to processing but
keeps its `task_id` and `created_at`. -/
theorem worker_transitions_preserve_identity_witness :
    (newRecord "task_a_5" 5).task_id = (newRecord "task_a_5" 5).task_id ∧
    (newRecord "task_a_5" 5).created_at = (newRecord "task_a_5" 5).created_at := by
  refine worker_transitions_preserve_identity
    (run [Action.enqueue "a" 5 (Except.ok ())]) Action.start (Or.inl rfl)
    "task_a_5" (newRecord "task_a_5" 5)
    { newRecord "task_a_5" 5 with status := "processing" } (by decide) (by decide)
    |>.imp ?_ ?_
  · intro h
    rw [← h]
  · intro h
    rw [← h]

/-- Status recorded for an id directly in a registry value. -/
def statusIn (d : Registry) (id : String) : Option String :=
  (dictGet d id).map (fun r => r.status)

theorem statusOf_eq_statusIn (s : QState) (id : String) :
    statusOf s id = statusIn s.task_statuses id := rfl

theorem statusIn_updateRecord_ne (d : Registry) (k id : String)
    (f : TaskStatus → TaskStatus) (hne : id ≠ k) :
    statusIn (updateRecord d k f) id = statusIn d id := by
  unfold statusIn
  rw [dictGet_updateRecord_ne d k id f hne]

/-- One allowed move of the status lifecycle, staying put included:
absent ids stay absent or appear as `"queued"`, `"queued"` may move to
`"processing"`, and `"processing"` may move to `"completed"` or `"failed"`. -/
def dagStep (before after : Option String) : Prop :=
  before = after ∨
  (before = none ∧ after = some "queued") ∨
  (before = some "queued" ∧ after = some "processing") ∨
  (before = some "processing" ∧ after = some "completed") ∨
  (before = some "processing" ∧ after = some "failed")

/-- C2 amended: provided no two enqueue operations generate the same task_id
(no name/second collision), every step of the system moves every id's
recorded status along the DAG queued to processing to completed-or-failed
only: nothing skips processing, nothing re-enters queued, nothing leaves a
terminal state. -/
theorem statuses_follow_dag (acts : List Action) (a : Action) (id : String)
    (hn : (run (acts ++ [a])).enqueued.Nodup) :
    dagStep (statusOf (run acts) id) (statusOf (run (acts ++ [a])) id) := by
  rw [run_snoc] at hn ⊢
  obtain ⟨hb1, hb2, hb3⟩ := baseInv_run acts
  have hsn : (run acts).enqueued.Nodup := by
    rcases enqueued_stepA (run acts) a with ⟨t, ht⟩
    rw [ht] at hn
    exact hn.of_append_left
  obtain ⟨hi1, hi2, hi3⟩ := inv_run acts hsn
  rcases a with ⟨name, now, outcome⟩ | _ | now
  · rw [stepA_enqueue] at hn ⊢
    by_cases he : id = mkTaskId name now
    · rw [he]
      have hfresh : mkTaskId name now ∉ (run acts).enqueued :=
        not_mem_of_nodup_snoc (run acts).enqueued (mkTaskId name now) hn
      have hnone : statusOf (run acts) (mkTaskId name now) = none := by
        rw [statusOf_eq_statusIn]
        unfold statusIn
        rw [dictGet_eq_none _ _ (by rw [hi1]; exact hfresh)]
        rfl
      have hafter :
          statusOf (add_task (run acts) name now outcome) (mkTaskId name now) =
            some "queued" := by
        rw [statusOf_eq_statusIn]
        show statusIn (dictInsert (run acts).task_statuses (mkTaskId name now)
          (newRecord (mkTaskId name now) now)) (mkTaskId name now) = _
        unfold statusIn
        rw [dictGet_dictInsert_self]
        rfl
      exact Or.inr (Or.inl ⟨hnone, hafter⟩)
    · refine Or.inl ?_
      rw [statusOf_eq_statusIn, statusOf_eq_statusIn]
      show statusIn (run acts).task_statuses id =
        statusIn (dictInsert (run acts).task_statuses (mkTaskId name now)
          (newRecord (mkTaskId name now) now)) id
      unfold statusIn
      rw [dictGet_dictInsert_ne _ _ _ _ he]
  · rcases hc : (run acts).current with _ | item
    · rcases hq : (run acts).task_queue with _ | ⟨item, rest⟩
      · rw [stepA_start_empty _ hq]
        exact Or.inl rfl
      · rw [stepA_start_active _ item rest hc hq]
        by_cases he : id = item.id
        · rw [he]
          have hpres : item.id ∈ keys (run acts).task_statuses :=
            hb2 item (by rw [hq]; exact List.mem_cons_self _ _)
          rcases Option.isSome_iff_exists.1 ((mem_keys_iff _ _).1 hpres) with ⟨r0, hr0⟩
          obtain ⟨_, hqd0, _, _⟩ := hi3 item.id r0 hr0
          have hst0 : r0.status = "queued" := hqd0 (by simp [queueIds, hq])
          have hbefore : statusOf (run acts) item.id = some "queued" := by
            rw [statusOf_eq_statusIn]
            unfold statusIn
            rw [hr0]
            simp [hst0]
          have hafter : statusIn (markProcessing (run acts).task_statuses item.id)
              item.id = some "processing" := by
            unfold statusIn markProcessing
            rw [dictGet_updateRecord_self, hr0]
            rfl
          exact Or.inr (Or.inr (Or.inl ⟨hbefore, hafter⟩))
        · refine Or.inl ?_
          rw [statusOf_eq_statusIn, statusOf_eq_statusIn]
          show statusIn (run acts).task_statuses id =
            statusIn (markProcessing (run acts).task_statuses item.id) id
          unfold markProcessing
          rw [statusIn_updateRecord_ne _ _ _ _ he]
    · rw [stepA_start_busy _ item hc]
      exact Or.inl rfl
  · rcases hc : (run acts).current with _ | item
    · rw [stepA_finish_idle _ now hc]
      exact Or.inl rfl
    · have hcur : currentId (run acts) = some item.id := by simp [currentId, hc]
      have hpres : item.id ∈ keys (run acts).task_statuses := hb3 item hc
      rcases Option.isSome_iff_exists.1 ((mem_keys_iff _ _).1 hpres) with ⟨r0, hr0⟩
      obtain ⟨_, _, hcd0, _⟩ := hi3 item.id r0 hr0
      have hst0 : r0.status = "processing" := hcd0 hcur
      have hbefore : statusOf (run acts) item.id = some "processing" := by
        rw [statusOf_eq_statusIn]
        unfold statusIn
        rw [hr0]
        simp [hst0]
      rcases hfu : item.func with e | u
      · rw [stepA_finish_err _ item now e hc hfu]
        by_cases he : id = item.id
        · rw [he]
          have hafter : statusIn (markFailed (run acts).task_statuses item.id e now)
              item.id = some "failed" := by
            unfold statusIn markFailed
            rw [dictGet_updateRecord_self, hr0]
            rfl
          exact Or.inr (Or.inr (Or.inr (Or.inr ⟨hbefore, hafter⟩)))
        · refine Or.inl ?_
          rw [statusOf_eq_statusIn, statusOf_eq_statusIn]
          show statusIn (run acts).task_statuses id =
            statusIn (markFailed (run acts).task_statuses item.id e now) id
          unfold markFailed
          rw [statusIn_updateRecord_ne _ _ _ _ he]
      · rw [stepA_finish_ok _ item now hc (by rw [hfu])]
        by_cases he : id = item.id
        · rw [he]
          have hafter : statusIn (markCompleted (run acts).task_statuses item.id now)
              item.id = some "completed" := by
            unfold statusIn markCompleted
            rw [dictGet_updateRecord_self, hr0]
            rfl
          exact Or.inr (Or.inr (Or.inr (Or.inl ⟨hbefore, hafter⟩)))
        · refine Or.inl ?_
          rw [statusOf_eq_statusIn, statusOf_eq_statusIn]
          show statusIn (run acts).task_statuses id =
            statusIn (markCompleted (run acts).task_statuses item.id now) id
          unfold markCompleted
          rw [statusIn_updateRecord_ne _ _ _ _ he]

/-- C2 witness: with a single collision-free task, dequeuing it moves its
status by one DAG edge (queued to processing). -/
theorem statuses_follow_dag_witness :
    (run ([Action.enqueue "a" 5 (Except.ok ())] ++ [Action.start])).enqueued.Nodup ∧
    dagStep (statusOf (run [Action.enqueue "a" 5 (Except.ok ())]) "task_a_5")
      (statusOf (run ([Action.enqueue "a" 5 (Except.ok ())] ++ [Action.start]))
        "task_a_5") :=
  ⟨by decide, statuses_follow_dag [Action.enqueue "a" 5 (Except.ok ())]
    Action.start "task_a_5" (by decide)⟩

/-- C2 counterexample: two enqueues of name `a` in the same second share the
task_id `task_a_5`; after the first item completes, re-creating the id puts
the record back to `queued` — a transition out of a terminal state, which the
claim asserts can never happen. -/
theorem status_reenters_queued_after_terminal :
    statusOf (run [Action.enqueue "a" 5 (Except.ok ()), Action.start,
        Action.finish 5]) "task_a_5" = some "completed" ∧
    statusOf (run [Action.enqueue "a" 5 (Except.ok ()), Action.start,
        Action.finish 5, Action.enqueue "a" 5 (Except.ok ())]) "task_a_5" =
      some "queued" := by
  decide

/-- C3: when the awaited unit of work raises, the worker marks the task's
record `failed` with the error's description and the completion time, swallows
the exception (the step is total — there is no propagation path), leaves the
pending queue untouched and returns to idle, ready to dequeue the next item. -/
theorem failure_swallowed_and_recorded (acts : List Action) (item : WorkItem)
    (e : String) (now : Nat)
    (hc : (run acts).current = some item) (hf : item.func = Except.error e) :
    (∃ r, dictGet (run (acts ++ [Action.finish now])).task_statuses item.id =
        some r ∧ r.status = "failed" ∧ r.error = some e ∧
        r.completed_at = some now) ∧
    (run (acts ++ [Action.finish now])).task_queue = (run acts).task_queue ∧
    (run (acts ++ [Action.finish now])).current = none := by
  rw [run_snoc, stepA_finish_err _ item now e hc hf]
  refine ⟨?_, rfl, rfl⟩
  have hpres : item.id ∈ keys (run acts).task_statuses := (baseInv_run acts).2.2 item hc
  rcases Option.isSome_iff_exists.1 ((mem_keys_iff _ _).1 hpres) with ⟨r0, hr0⟩
  refine ⟨{ r0 with
      status := "failed",
      error := some e,
      completed_at := some now }, ?_, rfl, rfl, rfl⟩
  show dictGet (markFailed (run acts).task_statuses item.id e now) item.id = _
  unfold markFailed
  rw [dictGet_updateRecord_self, hr0]
  rfl

/-- C3 witness: a unit of work raising `disk full` ends as a failed record
carrying that description, with the queue intact and the worker idle. -/
theorem failure_swallowed_and_recorded_witness :
    (∃ r, dictGet (run ([Action.enqueue "a" 5 (Except.error "disk full"),
        Action.start] ++ [Action.finish 6])).task_statuses "task_a_5" =
        some r ∧ r.status = "failed" ∧ r.error = some "disk full" ∧
        r.completed_at = some 6) ∧
    (run ([Action.enqueue "a" 5 (Except.error "disk full"), Action.start] ++
        [Action.finish 6])).task_queue =
      (run [Action.enqueue "a" 5 (Except.error "disk full"),
        Action.start]).task_queue ∧
    (run ([Action.enqueue "a" 5 (Except.error "disk full"), Action.start] ++
        [Action.finish 6])).current = none :=
  failure_swallowed_and_recorded
    [Action.enqueue "a" 5 (Except.error "disk full"), Action.start]
    ⟨"task_a_5", Except.error "disk full"⟩ "disk full" 6 rfl rfl

/-- C4 amended: provided no two enqueue operations generate the same task_id,
every reachable record has `completed_at` set exactly when its status is
terminal and `error` set exactly when its status is `"failed"`. -/
theorem fields_coherent_without_collisions (acts : List Action) (id : String)
    (r : TaskStatus) (hn : (run acts).enqueued.Nodup)
    (hr : dictGet (run acts).task_statuses id = some r) :
    (r.completed_at.isSome ↔ (r.status = "completed" ∨ r.status = "failed")) ∧
    (r.error.isSome ↔ r.status = "failed") :=
  ((inv_run acts hn).2.2 id r hr).1

/-- C4 witness: a collision-free failed task has both `completed_at` and
`error` set, as the coherence theorem demands. -/
theorem fields_coherent_without_collisions_witness :
    ((some 6 : Option Nat).isSome ↔
      (("failed" : String) = "completed" ∨ ("failed" : String) = "failed")) ∧
    ((some "x" : Option String).isSome ↔ ("failed" : String) = "failed") :=
  fields_coherent_without_collisions
    [Action.enqueue "a" 5 (Except.error "x"), Action.start, Action.finish 6]
    "task_a_5"
    { task_id := "task_a_5", status := "failed", created_at := 5,
      completed_at := some 6, error := some "x" }
    (by decide) (by decide)

/-- C4 counterexample: after a task_id collision the second queue item drags
the completed record back to `processing` while `completed_at` stays set —
`completed_at` is set although the status is not terminal. -/
theorem completed_at_set_while_processing :
    statusOf (run [Action.enqueue "a" 5 (Except.ok ()),
        Action.enqueue "a" 5 (Except.ok ()), Action.start, Action.finish 5,
        Action.start]) "task_a_5" = some "processing" ∧
    (dictGet (run [Action.enqueue "a" 5 (Except.ok ()),
        Action.enqueue "a" 5 (Except.ok ()), Action.start, Action.finish 5,
        Action.start]).task_statuses "task_a_5").map (fun r => r.completed_at) =
      some (some 5) := by
  decide

/-- C7 amended: the worker's transition is a guarded dict update with no
failure path: on a task_id absent from the registry it silently leaves the
registry unchanged (no `UnknownTaskError`), and on dequeue it sets the head
item's record to `processing` whatever its previous status — an
already-terminal record is updated, not rejected (no
`InvalidTransitionError`). -/
theorem transition_silently_skips_and_accepts_terminal :
    (∀ (d : Registry) (k : String) (f : TaskStatus → TaskStatus),
      k ∉ keys d → updateRecord d k f = d) ∧
    (∀ (s : QState) (item : WorkItem) (rest : List WorkItem),
      s.current = none → s.task_queue = item :: rest →
      item.id ∈ keys s.task_statuses →
      statusOf (stepA s Action.start) item.id = some "processing") := by
  constructor
  · exact updateRecord_of_not_mem
  · intro s item rest hc hq hm
    rw [stepA_start_active s item rest hc hq, statusOf_eq_statusIn]
    show statusIn (markProcessing s.task_statuses item.id) item.id = _
    rcases Option.isSome_iff_exists.1 ((mem_keys_iff _ _).1 hm) with ⟨r0, hr0⟩
    unfold statusIn markProcessing
    rw [dictGet_updateRecord_self, hr0]
    rfl

/-- C7 witness: updating an absent id is the identity on a one-record
registry, and dequeuing a second queue item whose record is already failed
moves it straight to `processing`. -/
theorem transition_silently_skips_and_accepts_terminal_witness :
    updateRecord [("task_b_7", newRecord "task_b_7" 7)] "missing"
        (fun r => { r with status := "processing" }) =
      [("task_b_7", newRecord "task_b_7" 7)] ∧
    statusOf (stepA (run [Action.enqueue "b" 7 (Except.error "boom"),
        Action.enqueue "b" 7 (Except.ok ()), Action.start, Action.finish 8])
        Action.start) "task_b_7" = some "processing" :=
  ⟨transition_silently_skips_and_accepts_terminal.1
      [("task_b_7", newRecord "task_b_7" 7)] "missing"
      (fun r => { r with status := "processing" }) (by decide),
   transition_silently_skips_and_accepts_terminal.2
      (run [Action.enqueue "b" 7 (Except.error "boom"),
        Action.enqueue "b" 7 (Except.ok ()), Action.start, Action.finish 8])
      ⟨"task_b_7", Except.ok ()⟩ [] rfl rfl (by decide)⟩

/-- C7 counterexample: dequeuing a colliding second item transitions the
already-failed record to `processing`: no `InvalidTransitionError` is raised
and the registry does not stay unchanged, contradicting the claimed
contract. -/
theorem terminal_record_is_transitioned :
    statusOf (run [Action.enqueue "b" 7 (Except.error "boom"),
        Action.enqueue "b" 7 (Except.ok ()), Action.start, Action.finish 8])
        "task_b_7" = some "failed" ∧
    statusOf (run [Action.enqueue "b" 7 (Except.error "boom"),
        Action.enqueue "b" 7 (Except.ok ()), Action.start, Action.finish 8,
        Action.start]) "task_b_7" = some "processing" := by
  decide

/-- C8 amended: the queue-status endpoint reports the pending-queue length
(`queue_size`, not a count of records with status queued), the registry size
as `total_tasks`, and per-status counts for completed, failed and processing;
`total_tasks` equals the number of create calls only when no task_ids
collided (in general it is the number of distinct ids). -/
theorem queue_status_reports (acts : List Action) :
    (get_queue_status (run acts)).queue_size = (run acts).task_queue.length ∧
    (get_queue_status (run acts)).total_tasks = (run acts).task_statuses.length ∧
    ((run acts).enqueued.Nodup →
      (get_queue_status (run acts)).total_tasks = (run acts).enqueued.length) := by
  refine ⟨rfl, rfl, ?_⟩
  intro hn
  have h1 := (inv_run acts hn).1
  show (run acts).task_statuses.length = (run acts).enqueued.length
  rw [← h1]
  show (run acts).task_statuses.length =
    ((run acts).task_statuses.map (fun p => p.1)).length
  rw [List.length_map]

/-- C8 witness: with two distinct tasks enqueued, `total_tasks` is 2, the
number of create calls. -/
theorem queue_status_reports_witness :
    (get_queue_status (run [Action.enqueue "a" 5 (Except.ok ()),
        Action.enqueue "b" 5 (Except.ok ())])).queue_size =
      (run [Action.enqueue "a" 5 (Except.ok ()),
        Action.enqueue "b" 5 (Except.ok ())]).task_queue.length ∧
    (get_queue_status (run [Action.enqueue "a" 5 (Except.ok ()),
        Action.enqueue "b" 5 (Except.ok ())])).total_tasks =
      (run [Action.enqueue "a" 5 (Except.ok ()),
        Action.enqueue "b" 5 (Except.ok ())]).enqueued.length :=
  ⟨(queue_status_reports [Action.enqueue "a" 5 (Except.ok ()),
      Action.enqueue "b" 5 (Except.ok ())]).1,
   (queue_status_reports [Action.enqueue "a" 5 (Except.ok ()),
      Action.enqueue "b" 5 (Except.ok ())]).2.2 (by decide)⟩

/-- C8 counterexample: two create calls with colliding ids leave one registry
record, so `total_tasks` is 1 while two creates were issued — the claimed
equality with the number of create calls fails (and the response carries
`queue_size`, the pending-queue depth, rather than any count of records with
status queued). -/
theorem total_tasks_undercounts_creates :
    (get_queue_status (run [Action.enqueue "a" 5 (Except.ok ()),
        Action.enqueue "a" 5 (Except.ok ())])).total_tasks = 1 ∧
    (run [Action.enqueue "a" 5 (Except.ok ()),
        Action.enqueue "a" 5 (Except.ok ())]).enqueued.length = 2 ∧
    (get_queue_status (run [Action.enqueue "a" 5 (Except.ok ()),
        Action.enqueue "a" 5 (Except.ok ())])).queue_size = 2 := by
  decide

end BgTasks
